/-
Verification of the flydrop-app p2p core against its specification.

The Rust sources under lib/p2p (manager.rs, net.rs) and lib/core (node.rs)
are shallowly embedded below.  Types whose defining module is not part of
the provided sources (proto.rs, hmac.rs, peer.rs, pairing.rs, err.rs,
lib/p2p discovery.rs) are modelled from the specification, as marked in
their doc comments.  Machine integers are modelled as Nat with explicit
`% 2^w` where wrapping matters; hash maps and sets are modelled as
duplicate-free association lists / lists.
-/
import Mathlib

namespace Flydrop

/-! ## Basic data model (peer.rs is not in the provided sources).

Modelled from the spec: `PeerId` is an opaque, comparable identifier,
serializable as raw bytes for HMAC input; we represent it by its byte
list. -/

/-- Byte strings are lists of naturals (each `< 256` where it matters). -/
abbrev Bytes := List Nat

/-- Modelled from the spec: an opaque node identifier, serializable as raw
bytes. -/
abbrev PeerId := Bytes

/-- Modelled from the spec: device type is a small tagged variant
(desktop/mobile/unknown). -/
inductive DeviceType where
  | desktop
  | mobile
  | unknown
deriving DecidableEq, Repr

/-- Socket address: IPv4 address (`< 2^32`) and port (`< 2^16`). -/
structure SocketAddr where
  ip : Nat
  port : Nat
deriving DecidableEq, Repr

/-- Modelled from the spec: `PeerMetadata = { id, type, name, addr }`;
the name is carried as its UTF-8 bytes. -/
structure PeerMetadata where
  id : PeerId
  typ : DeviceType
  name : Bytes
  addr : SocketAddr
deriving DecidableEq, Repr

/-- Modelled from the spec: a `PairingAuthenticator` holds the shared
pairing secret and derives TOTP codes from it. -/
structure PairingAuthenticator where
  secret : Bytes
deriving DecidableEq, Repr

/-- Modelled from the spec: `PeerCandidate = { id, metadata, addrs, auth }`.
The `HashSet<SocketAddr>` of addresses is modelled as a duplicate-free
list in iteration order. -/
structure PeerCandidate where
  id : PeerId
  metadata : PeerMetadata
  addrs : List SocketAddr
  auth : PairingAuthenticator
deriving DecidableEq, Repr

/-- Which side of the handshake produced the connection (peer.rs
`ConnectionType`). -/
inductive ConnectionType where
  | client
  | server
deriving DecidableEq, Repr

/-- Modelled from the spec: a live authenticated connection
`{ id, metadata, role, stream }`; the stream itself is I/O and is not
modelled. -/
structure Peer where
  id : PeerId
  metadata : PeerMetadata
  role : ConnectionType
deriving DecidableEq, Repr

/-- Connection-level errors, from err.rs as used by manager.rs / net.rs. -/
inductive ConnError where
  | dup
  | notFound
  | addr
  | timeout
  | disconnect
  | auth
  | msg
  | codec
  | failure (code : Nat)
deriving DecidableEq, Repr

/-! ## Association-list maps (DashMap / DashSet model) -/

/-- Lookup in an association list (first binding wins). -/
def mapLookup (m : List (PeerId × PeerCandidate)) (k : PeerId) :
    Option PeerCandidate :=
  match m with
  | [] => none
  | (k', v) :: rest => if k' = k then some v else mapLookup rest k

/-- `DashMap::insert`: replace any existing binding for the key. -/
def mapInsert (m : List (PeerId × PeerCandidate)) (k : PeerId)
    (v : PeerCandidate) : List (PeerId × PeerCandidate) :=
  (k, v) :: m.filter (fun kv => kv.1 ≠ k)

/-- `DashMap::remove`: drop the binding, returning it when present. -/
def mapRemove (m : List (PeerId × PeerCandidate)) (k : PeerId) :
    Option PeerCandidate × List (PeerId × PeerCandidate) :=
  (mapLookup m k, m.filter (fun kv => kv.1 ≠ k))

/-- `DashMap::contains_key`. -/
def mapContains (m : List (PeerId × PeerCandidate)) (k : PeerId) : Bool :=
  (mapLookup m k).isSome

/-- `DashSet::insert` (no duplicates). -/
def setInsert (s : List PeerId) (k : PeerId) : List PeerId :=
  if k ∈ s then s else k :: s

/-- `DashSet::remove`. -/
def setRemove (s : List PeerId) (k : PeerId) : List PeerId :=
  s.filter (fun x => x ≠ k)

/-! ## P2pManager state (manager.rs) -/

/-- Discovery frames, from event.rs as used by manager.rs: a
`PresenceRequest` carries the sender's dedup nonce, a `PresenceResponse`
carries the sender's metadata. -/
inductive DiscoveryEvent where
  | presenceRequest (dedup : Nat)
  | presenceResponse (meta : PeerMetadata)
deriving DecidableEq, Repr

/-- Events sent on the application channel (event.rs as used by
manager.rs). -/
inductive P2pEvent where
  | peerDiscovered (meta : PeerMetadata)
  | peerConnected (peer : Peer)
  | peerDisconnected (id : PeerId)
deriving DecidableEq, Repr

/-- The mutable registries of `P2pManager` (manager.rs).  The channels are
modelled by returning the events emitted by each operation. -/
structure MState where
  id : PeerId
  metadata : PeerMetadata
  known_peers : List (PeerId × PeerCandidate)
  discovered_peers : List (PeerId × PeerCandidate)
  connected_peers : List PeerId
  dedup : Nat
deriving DecidableEq, Repr

/-- manager.rs `add_known_peer`: insert or replace in `known_peers`. -/
def addKnownPeer (st : MState) (peer : PeerCandidate) : MState :=
  { st with known_peers := mapInsert st.known_peers peer.id peer }

/-- manager.rs `request_presence`: emit `PresenceRequest(dedup)` on the
discovery channel. -/
def requestPresence (st : MState) : DiscoveryEvent :=
  DiscoveryEvent.presenceRequest st.dedup

/-- manager.rs `get_peer_candidate`: a `discovered_peers` entry if
present, else a `known_peers` entry. -/
def getPeerCandidate (st : MState) (id : PeerId) : Option PeerCandidate :=
  (mapLookup st.discovered_peers id).or (mapLookup st.known_peers id)

/-- manager.rs `handle_peer_discovered`.  Returns the new state and the
events emitted on the application channel. -/
def handlePeerDiscovered (st : MState) (peer : PeerMetadata) :
    MState × List P2pEvent :=
  let id := peer.id
  if id ∉ st.connected_peers ∧ mapContains st.discovered_peers id = false then
    match mapRemove st.known_peers id with
    | (some known, known') =>
      let candidate : PeerCandidate :=
        { id := id
          metadata := peer
          addrs := [peer.addr]
          auth := known.auth }
      ({ st with
          discovered_peers := mapInsert st.discovered_peers id candidate
          known_peers := mapInsert known' id candidate },
        [P2pEvent.peerDiscovered candidate.metadata])
    | (none, _) => (st, [])
  else (st, [])

/-- manager.rs `handle_presence_request`: emit a `PresenceResponse` with
the local metadata. -/
def handlePresenceRequest (st : MState) : DiscoveryEvent :=
  DiscoveryEvent.presenceResponse st.metadata

/-- manager.rs `handle_new_connection`: record the id and emit
`PeerConnected`. -/
def handleNewConnection (st : MState) (peer : Peer) : MState × List P2pEvent :=
  ({ st with connected_peers := setInsert st.connected_peers peer.id },
    [P2pEvent.peerConnected peer])

/-- manager.rs `peer_disconnected`: remove the id and emit
`PeerDisconnected`. -/
def peerDisconnected (st : MState) (id : PeerId) : MState × List P2pEvent :=
  ({ st with connected_peers := setRemove st.connected_peers id },
    [P2pEvent.peerDisconnected id])

/-- manager.rs `connect_to_peer`, the address loop: try each candidate
address in order; `tcpOk` tells whether the TCP connect succeeds there,
`hs` gives the outcome of the client handshake run on that connection.
A handshake error is propagated immediately (Rust `?`); a failed TCP
connect moves to the next address; exhaustion gives `Addr`. -/
def tryAddrs (tcpOk : SocketAddr → Bool) (hs : SocketAddr → Except ConnError Peer) :
    List SocketAddr → Except ConnError Peer
  | [] => Except.error ConnError.addr
  | a :: rest => if tcpOk a then hs a else tryAddrs tcpOk hs rest

/-- manager.rs `connect_to_peer`: `Dup` if already connected, `NotFound`
if not discovered, otherwise run the address loop and record the id in
`connected_peers` only on success. -/
def connectToPeer (st : MState) (id : PeerId) (tcpOk : SocketAddr → Bool)
    (hs : SocketAddr → Except ConnError Peer) :
    Except ConnError Peer × MState :=
  if id ∈ st.connected_peers then
    (Except.error ConnError.dup, st)
  else
    match mapLookup st.discovered_peers id with
    | none => (Except.error ConnError.notFound, st)
    | some candidate =>
      match tryAddrs tcpOk hs candidate.addrs with
      | Except.error e => (Except.error e, st)
      | Except.ok peer =>
        (Except.ok peer,
          { st with connected_peers := setInsert st.connected_peers id })

/-! ## Manager operation sequences (for the registry invariant) -/

/-- One operation on the manager state, as callable by the application or
the event loop (manager.rs). -/
inductive MOp where
  | addKnown (peer : PeerCandidate)
  | discovered (meta : PeerMetadata)
  | newConn (peer : Peer)
  | disconn (id : PeerId)
  | connectTo (id : PeerId) (tcpOk : SocketAddr → Bool)
      (hs : SocketAddr → Except ConnError Peer)

/-- Apply one operation, keeping only the state. -/
def applyOp (st : MState) : MOp → MState
  | MOp.addKnown p => addKnownPeer st p
  | MOp.discovered m => (handlePeerDiscovered st m).1
  | MOp.newConn p => (handleNewConnection st p).1
  | MOp.disconn id => (peerDisconnected st id).1
  | MOp.connectTo id t h => (connectToPeer st id t h).2

/-- Run a sequence of operations. -/
def runOps (st : MState) (ops : List MOp) : MState := ops.foldl applyOp st

/-- The registries of a fresh manager are empty (manager.rs `new`). -/
def initState (id : PeerId) (meta : PeerMetadata) (dedup : Nat) : MState :=
  { id := id, metadata := meta, known_peers := [], discovered_peers := [],
    connected_peers := [], dedup := dedup }

/-- §3 invariant: every id in `discovered_peers` also has a
`known_peers` entry. -/
def discoveredSubKnown (st : MState) : Prop :=
  ∀ kv ∈ st.discovered_peers, mapContains st.known_peers kv.1 = true

/-! ## Map lemmas -/

theorem mapLookup_filter_ne (m : List (PeerId × PeerCandidate)) (k id : PeerId)
    (h : k ≠ id) :
    mapLookup (m.filter (fun kv => kv.1 ≠ id)) k = mapLookup m k := by
  induction m with
  | nil => rfl
  | cons kv rest ih =>
    by_cases hkv : kv.1 = id
    · have hne : kv.1 ≠ k := fun hh => h (hh ▸ hkv)
      rw [List.filter_cons_of_neg (by simpa using hkv), ih]
      show mapLookup rest k = mapLookup (kv :: rest) k
      rw [mapLookup, if_neg hne]
    · rw [List.filter_cons_of_pos (by simpa using hkv)]
      show (if kv.1 = k then some kv.2 else
          mapLookup (rest.filter (fun kv => kv.1 ≠ id)) k) =
        mapLookup (kv :: rest) k
      rw [ih, mapLookup]

theorem mapLookup_mapInsert_self (m : List (PeerId × PeerCandidate))
    (k : PeerId) (v : PeerCandidate) :
    mapLookup (mapInsert m k v) k = some v := by
  simp [mapInsert, mapLookup]

theorem mapLookup_mapInsert_ne (m : List (PeerId × PeerCandidate))
    (k k' : PeerId) (v : PeerCandidate) (h : k' ≠ k) :
    mapLookup (mapInsert m k v) k' = mapLookup m k' := by
  simp only [mapInsert, mapLookup]
  rw [if_neg (fun hh => h hh.symm)]
  exact mapLookup_filter_ne m k' k h

theorem mapContains_mapInsert (m : List (PeerId × PeerCandidate))
    (k k' : PeerId) (v : PeerCandidate) (h : mapContains m k' = true) :
    mapContains (mapInsert m k v) k' = true := by
  by_cases hk : k' = k
  · subst hk; simp [mapContains, mapLookup_mapInsert_self]
  · rw [mapContains, mapLookup_mapInsert_ne m k k' v hk]; exact h

theorem mem_of_mem_mapInsert (m : List (PeerId × PeerCandidate))
    (k : PeerId) (v : PeerCandidate) (kv : PeerId × PeerCandidate)
    (h : kv ∈ mapInsert m k v) : kv = (k, v) ∨ kv ∈ m := by
  rcases List.mem_cons.mp h with heq | hmem
  · exact Or.inl heq
  · exact Or.inr (List.mem_filter.mp hmem).1

/-! ## C4: the discovered-implies-known invariant -/

theorem applyOp_preserves_discoveredSubKnown (st : MState) (op : MOp)
    (h : discoveredSubKnown st) : discoveredSubKnown (applyOp st op) := by
  cases op with
  | addKnown p =>
    intro kv hkv
    exact mapContains_mapInsert _ _ _ _ (h kv hkv)
  | discovered m =>
    show discoveredSubKnown (handlePeerDiscovered st m).1
    rw [handlePeerDiscovered]
    split
    · rcases hlook : mapLookup st.known_peers m.id with _ | known
      · simp only [mapRemove, hlook]
        exact h
      · simp only [mapRemove, hlook]
        intro kv hkv
        rcases List.mem_cons.mp hkv with heq | hmem
        · subst heq
          simp [mapContains, mapLookup_mapInsert_self]
        · have hin : kv ∈ st.discovered_peers := (List.mem_filter.mp hmem).1
          have hne : kv.1 ≠ m.id := by
            have := (List.mem_filter.mp hmem).2
            simpa using this
          have hk := h kv hin
          show (mapLookup (mapInsert _ m.id _) kv.1).isSome = true
          rw [mapLookup_mapInsert_ne _ _ _ _ hne,
            mapLookup_filter_ne st.known_peers kv.1 m.id hne]
          exact hk
    · exact h
  | newConn p => intro kv hkv; exact h kv hkv
  | disconn id => intro kv hkv; exact h kv hkv
  | connectTo id t hsf =>
    show discoveredSubKnown (connectToPeer st id t hsf).2
    rw [connectToPeer]
    split
    · exact h
    · split
      · exact h
      · split
        · exact h
        · exact h

theorem runOps_preserves_discoveredSubKnown (st : MState) (ops : List MOp)
    (h : discoveredSubKnown st) : discoveredSubKnown (runOps st ops) := by
  induction ops generalizing st with
  | nil => exact h
  | cons op rest ih =>
    exact ih (applyOp st op) (applyOp_preserves_discoveredSubKnown st op h)

theorem initState_discoveredSubKnown (lid : PeerId) (meta : PeerMetadata)
    (dedup : Nat) : discoveredSubKnown (initState lid meta dedup) := by
  intro kv hkv
  simp [initState] at hkv

theorem handlePeerDiscovered_unknown (st : MState) (m : PeerMetadata)
    (hm : mapLookup st.known_peers m.id = none) :
    handlePeerDiscovered st m = (st, []) := by
  rw [handlePeerDiscovered]
  split
  · simp [mapRemove, hm]
  · rfl

/-- C4: running any sequence of manager operations from a fresh manager
keeps every `discovered_peers` id backed by a `known_peers` entry, and
`handle_peer_discovered` discards a metadata whose id has no
`known_peers` entry, changing no state and emitting no event. -/
theorem discovered_implies_known (lid : PeerId) (meta : PeerMetadata)
    (dedup : Nat) (ops : List MOp) (st : MState) (m : PeerMetadata)
    (hm : mapLookup st.known_peers m.id = none) :
    discoveredSubKnown (runOps (initState lid meta dedup) ops)
    ∧ handlePeerDiscovered st m = (st, []) :=
  ⟨runOps_preserves_discoveredSubKnown _ ops
      (initState_discoveredSubKnown lid meta dedup),
    handlePeerDiscovered_unknown st m hm⟩

/-- Sample local metadata used by concrete witnesses. -/
def wMeta0 : PeerMetadata :=
  { id := [0], typ := DeviceType.desktop, name := [],
    addr := { ip := 9, port := 9 } }

/-- Sample metadata of peer `[2]` as first observed (address `(1, 80)`). -/
def wMeta2a : PeerMetadata :=
  { id := [2], typ := DeviceType.mobile, name := [],
    addr := { ip := 1, port := 80 } }

/-- Sample metadata of peer `[2]` as rediscovered from address `(2, 81)`. -/
def wMeta2b : PeerMetadata :=
  { id := [2], typ := DeviceType.mobile, name := [],
    addr := { ip := 2, port := 81 } }

/-- Sample metadata of an unpaired peer `[5]`. -/
def wMeta5 : PeerMetadata :=
  { id := [5], typ := DeviceType.unknown, name := [],
    addr := { ip := 3, port := 82 } }

/-- Sample known candidate for peer `[2]`, holding address `(1, 80)`. -/
def wCand2 : PeerCandidate :=
  { id := [2], metadata := wMeta2a, addrs := [{ ip := 1, port := 80 }],
    auth := { secret := [5] } }

/-- Sample fresh manager state. -/
def wInit : MState := initState [0] wMeta0 7

/-- Witness for C4 at a concrete run: one pairing followed by a discovery
of that peer, and a discovery for an unpaired id that is a no-op. -/
theorem discovered_implies_known_witness :
    mapLookup wInit.known_peers [5] = none
    ∧ (discoveredSubKnown
        (runOps wInit [MOp.addKnown wCand2, MOp.discovered wMeta2b])
      ∧ handlePeerDiscovered wInit wMeta5 = (wInit, [])) :=
  ⟨by decide, discovered_implies_known [0] wMeta0 7 _ wInit wMeta5 (by decide)⟩

/-! ## C6: addresses recorded by handle_peer_discovered -/

/-- C6 amended: in the branch that records a discovery, the candidate
written to `discovered_peers` carries exactly the newly observed address;
previously recorded addresses of the `known_peers` entry are discarded. -/
theorem handle_peer_discovered_addrs_replaced (st : MState)
    (meta : PeerMetadata) (known : PeerCandidate)
    (hconn : meta.id ∉ st.connected_peers)
    (hdisc : mapContains st.discovered_peers meta.id = false)
    (hknown : mapLookup st.known_peers meta.id = some known) :
    mapLookup (handlePeerDiscovered st meta).1.discovered_peers meta.id =
      some { id := meta.id, metadata := meta, addrs := [meta.addr],
             auth := known.auth } := by
  rw [handlePeerDiscovered]
  rw [if_pos ⟨hconn, hdisc⟩]
  simp only [mapRemove, hknown]
  exact mapLookup_mapInsert_self _ _ _

/-- A state whose `known_peers` holds only `wCand2` (with its recorded
address `(1, 80)`); nothing discovered or connected. -/
def wKnownOnly : MState :=
  { id := [0], metadata := wMeta0, known_peers := [([2], wCand2)],
    discovered_peers := [], connected_peers := [], dedup := 0 }

/-- The candidate `handle_peer_discovered` records in `wKnownOnly` for the
rediscovery `wMeta2b`: only the new address is kept. -/
def wCand2b : PeerCandidate :=
  { id := [2], metadata := wMeta2b, addrs := [{ ip := 2, port := 81 }],
    auth := { secret := [5] } }

/-- Witness for C6 (amended) at a concrete state. -/
theorem handle_peer_discovered_addrs_replaced_witness :
    ([2] : PeerId) ∉ wKnownOnly.connected_peers
    ∧ mapContains wKnownOnly.discovered_peers [2] = false
    ∧ mapLookup wKnownOnly.known_peers [2] = some wCand2
    ∧ mapLookup
        (handlePeerDiscovered wKnownOnly wMeta2b).1.discovered_peers [2] =
      some wCand2b :=
  ⟨by decide, by decide, by decide,
    handle_peer_discovered_addrs_replaced wKnownOnly wMeta2b wCand2
      (by decide) (by decide) (by decide)⟩

/-- C6 counterexample: the `known_peers` entry for id `[2]` already holds
address `(1, 80)`, a discovery arrives from address `(2, 81)`, and the
candidate recorded in `discovered_peers` does not contain the previously
recorded address `(1, 80)`. -/
theorem handle_peer_discovered_addrs_counterexample :
    ({ ip := 1, port := 80 } : SocketAddr) ∈ wCand2.addrs
    ∧ mapLookup
        (handlePeerDiscovered wKnownOnly wMeta2b).1.discovered_peers [2] =
      some wCand2b
    ∧ ({ ip := 1, port := 80 } : SocketAddr) ∉ wCand2b.addrs := by
  refine ⟨by decide, by decide, by decide⟩

/-! ## C9: get_peer_candidate lookup priority -/

/-- C9: `get_peer_candidate` returns the `discovered_peers` entry if one
exists, else the `known_peers` entry if one exists, else none. -/
theorem get_peer_candidate_priority (st : MState) (id : PeerId) :
    (∀ c, mapLookup st.discovered_peers id = some c →
        getPeerCandidate st id = some c)
    ∧ (mapLookup st.discovered_peers id = none →
        ∀ c, mapLookup st.known_peers id = some c →
          getPeerCandidate st id = some c)
    ∧ (mapLookup st.discovered_peers id = none →
        mapLookup st.known_peers id = none →
        getPeerCandidate st id = none) := by
  refine ⟨?_, ?_, ?_⟩
  · intro c hc
    simp [getPeerCandidate, hc]
  · intro hd c hc
    simp [getPeerCandidate, hd, hc]
  · intro hd hk
    simp [getPeerCandidate, hd, hk]

/-- Sample discovered candidate for peer `[1]`. -/
def wCand1 : PeerCandidate :=
  { id := [1],
    metadata := { id := [1], typ := DeviceType.mobile, name := [],
                  addr := { ip := 2, port := 81 } },
    addrs := [{ ip := 2, port := 81 }], auth := { secret := [6] } }

/-- A state with peer `[1]` discovered and peer `[2]` only known. -/
def wMixed : MState :=
  { id := [0], metadata := wMeta0, known_peers := [([2], wCand2)],
    discovered_peers := [([1], wCand1)], connected_peers := [], dedup := 0 }

/-- Witness for C9 at a concrete state covering the three cases. -/
theorem get_peer_candidate_priority_witness :
    getPeerCandidate wMixed [1] = some wCand1
    ∧ getPeerCandidate wMixed [2] = some wCand2
    ∧ getPeerCandidate wMixed [3] = none :=
  ⟨(get_peer_candidate_priority wMixed [1]).1 _ (by decide),
    (get_peer_candidate_priority wMixed [2]).2.1 (by decide) _ (by decide),
    (get_peer_candidate_priority wMixed [3]).2.2 (by decide) (by decide)⟩

/-! ## C3 / C10: connect_to_peer -/

theorem tryAddrs_all_fail (tcpOk : SocketAddr → Bool)
    (hs : SocketAddr → Except ConnError Peer) (addrs : List SocketAddr)
    (h : ∀ a ∈ addrs, tcpOk a = false) :
    tryAddrs tcpOk hs addrs = Except.error ConnError.addr := by
  induction addrs with
  | nil => rfl
  | cons a rest ih =>
    rw [tryAddrs, if_neg]
    · exact ih fun x hx => h x (List.mem_cons_of_mem a hx)
    · simp [h a (List.mem_cons_self a rest)]

theorem tryAddrs_first_ok (tcpOk : SocketAddr → Bool)
    (hs : SocketAddr → Except ConnError Peer) (addrs : List SocketAddr)
    (a : SocketAddr) (h : addrs.find? tcpOk = some a) :
    tryAddrs tcpOk hs addrs = hs a := by
  induction addrs with
  | nil => simp [List.find?] at h
  | cons x rest ih =>
    by_cases hx : tcpOk x = true
    · rw [List.find?_cons_of_pos _ hx] at h
      rw [tryAddrs, if_pos hx, Option.some_inj.mp h]
    · rw [List.find?_cons_of_neg _ (by simpa using hx)] at h
      rw [tryAddrs, if_neg hx]
      exact ih h

/-- C3: `connect_to_peer` fails with `Dup` when the id is already
connected, with `NotFound` when it is not discovered, with `Addr` when
every candidate address fails the TCP connect, and otherwise runs the
client handshake on the first address whose TCP connect succeeds and
returns the resulting peer. -/
theorem connect_to_peer_cases (st : MState) (id : PeerId)
    (tcpOk : SocketAddr → Bool) (hs : SocketAddr → Except ConnError Peer) :
    (id ∈ st.connected_peers →
      (connectToPeer st id tcpOk hs).1 = Except.error ConnError.dup)
    ∧ (id ∉ st.connected_peers → mapLookup st.discovered_peers id = none →
      (connectToPeer st id tcpOk hs).1 = Except.error ConnError.notFound)
    ∧ (∀ cand, id ∉ st.connected_peers →
      mapLookup st.discovered_peers id = some cand →
      (∀ a ∈ cand.addrs, tcpOk a = false) →
      (connectToPeer st id tcpOk hs).1 = Except.error ConnError.addr)
    ∧ (∀ cand a peer, id ∉ st.connected_peers →
      mapLookup st.discovered_peers id = some cand →
      cand.addrs.find? tcpOk = some a → hs a = Except.ok peer →
      (connectToPeer st id tcpOk hs).1 = Except.ok peer) := by
  refine ⟨?_, ?_, ?_, ?_⟩
  · intro hc
    rw [connectToPeer, if_pos hc]
  · intro hc hd
    rw [connectToPeer, if_neg hc]
    simp only [hd]
  · intro cand hc hd hfail
    rw [connectToPeer, if_neg hc]
    simp only [hd]
    rw [tryAddrs_all_fail tcpOk hs cand.addrs hfail]
  · intro cand a peer hc hd hfind hok
    rw [connectToPeer, if_neg hc]
    simp only [hd]
    rw [tryAddrs_first_ok tcpOk hs cand.addrs a hfind, hok]

/-- C10: whenever `connect_to_peer` returns an error, the three
registries are exactly as before the call; on success only
`connected_peers` changes, by inserting the id; `known_peers` and
`discovered_peers` are never modified. -/
theorem connect_to_peer_state_effects (st : MState) (id : PeerId)
    (tcpOk : SocketAddr → Bool) (hs : SocketAddr → Except ConnError Peer) :
    (∀ e, (connectToPeer st id tcpOk hs).1 = Except.error e →
      (connectToPeer st id tcpOk hs).2 = st)
    ∧ (∀ p, (connectToPeer st id tcpOk hs).1 = Except.ok p →
      (connectToPeer st id tcpOk hs).2 =
        { st with connected_peers := setInsert st.connected_peers id })
    ∧ (connectToPeer st id tcpOk hs).2.known_peers = st.known_peers
    ∧ (connectToPeer st id tcpOk hs).2.discovered_peers =
        st.discovered_peers := by
  by_cases hc : id ∈ st.connected_peers
  · have hEq : connectToPeer st id tcpOk hs = (Except.error ConnError.dup, st) := by
      simp only [connectToPeer, if_pos hc]
    rw [hEq]
    exact ⟨fun e _ => rfl, fun p hp => by simp at hp, rfl, rfl⟩
  · rcases hd : mapLookup st.discovered_peers id with _ | cand
    · have hEq : connectToPeer st id tcpOk hs =
          (Except.error ConnError.notFound, st) := by
        simp only [connectToPeer, if_neg hc, hd]
      rw [hEq]
      exact ⟨fun e _ => rfl, fun p hp => by simp at hp, rfl, rfl⟩
    · rcases ht : tryAddrs tcpOk hs cand.addrs with e | q
      · have hEq : connectToPeer st id tcpOk hs = (Except.error e, st) := by
          simp only [connectToPeer, if_neg hc, hd, ht]
        rw [hEq]
        exact ⟨fun e₂ _ => rfl, fun p hp => by simp at hp, rfl, rfl⟩
      · have hEq : connectToPeer st id tcpOk hs = (Except.ok q,
            { st with connected_peers := setInsert st.connected_peers id }) := by
          simp only [connectToPeer, if_neg hc, hd, ht]
        rw [hEq]
        exact ⟨fun e he => by simp at he, fun p _ => rfl, rfl, rfl⟩

/-- Oracle for the witnesses: the TCP connect succeeds exactly on port
81. -/
def wTcpOk : SocketAddr → Bool := fun a => a.port == 81

/-- Oracle for the witnesses: every handshake run yields this peer. -/
def wPeer1 : Peer :=
  { id := [1],
    metadata := { id := [1], typ := DeviceType.mobile, name := [],
                  addr := { ip := 2, port := 81 } },
    role := ConnectionType.client }

/-- Oracle for the witnesses: the client handshake outcome. -/
def wHs : SocketAddr → Except ConnError Peer := fun _ => Except.ok wPeer1

/-- A state with peer `[1]` discovered (one dead address, one live one),
peer `[2]` discovered with only dead addresses, and peer `[3]`
connected. -/
def wConn : MState :=
  { id := [0], metadata := wMeta0,
    known_peers := [([1], wCand1), ([2], wCand2)],
    discovered_peers :=
      [([1], { wCand1 with
               addrs := [{ ip := 7, port := 70 }, { ip := 2, port := 81 }] }),
        ([2], wCand2)],
    connected_peers := [[3]], dedup := 0 }

/-- Witness for C3 covering all four cases at concrete inputs. -/
theorem connect_to_peer_cases_witness :
    (connectToPeer wConn [3] wTcpOk wHs).1 = Except.error ConnError.dup
    ∧ (connectToPeer wConn [4] wTcpOk wHs).1 = Except.error ConnError.notFound
    ∧ (connectToPeer wConn [2] wTcpOk wHs).1 = Except.error ConnError.addr
    ∧ (connectToPeer wConn [1] wTcpOk wHs).1 = Except.ok wPeer1 :=
  ⟨(connect_to_peer_cases wConn [3] wTcpOk wHs).1 (by decide),
    (connect_to_peer_cases wConn [4] wTcpOk wHs).2.1 (by decide) (by decide),
    (connect_to_peer_cases wConn [2] wTcpOk wHs).2.2.1 wCand2 (by decide)
      (by decide) (by decide),
    (connect_to_peer_cases wConn [1] wTcpOk wHs).2.2.2
      { wCand1 with
        addrs := [{ ip := 7, port := 70 }, { ip := 2, port := 81 }] }
      { ip := 2, port := 81 } wPeer1 (by decide) (by decide) (by decide)
      rfl⟩

/-- Witness for C10: an error leaves the concrete state untouched, a
success only inserts the id into `connected_peers`. -/
theorem connect_to_peer_state_effects_witness :
    ((connectToPeer wConn [2] wTcpOk wHs).2 = wConn)
    ∧ ((connectToPeer wConn [1] wTcpOk wHs).2 =
      { wConn with connected_peers := setInsert wConn.connected_peers [1] }) :=
  ⟨(connect_to_peer_state_effects wConn [2] wTcpOk wHs).1 ConnError.addr rfl,
    (connect_to_peer_state_effects wConn [1] wTcpOk wHs).2.1 wPeer1 rfl⟩

/-! ## C1: the discovery loop's self-echo suppression -/

/-- Input to the discovery main loop: either an outgoing event dequeued
from the application channel or an inbound frame read from the multicast
socket together with its source address. -/
inductive DiscIn where
  | app (e : DiscoveryEvent)
  | net (e : DiscoveryEvent) (src : SocketAddr)

/-- Modelled from the spec: one iteration of the lib/p2p discovery loop
(lib/p2p/src/discovery.rs is not among the provided sources; spec §4.3).
An outgoing event is transmitted on the multicast group and never
forwarded; an inbound `PresenceRequest` whose dedup nonce equals the
local process's dedup nonce is dropped unconditionally; every other
inbound frame is forwarded on the discovery-to-manager channel.  The
returned list holds what this iteration forwards to the manager. -/
def discoveryStep (localDedup : Nat) :
    DiscIn → List (DiscoveryEvent × SocketAddr)
  | DiscIn.app _ => []
  | DiscIn.net (DiscoveryEvent.presenceRequest d) src =>
    if d = localDedup then [] else [(DiscoveryEvent.presenceRequest d, src)]
  | DiscIn.net (DiscoveryEvent.presenceResponse m) src =>
    [(DiscoveryEvent.presenceResponse m, src)]

/-- Everything the discovery loop forwards to the manager over an input
trace.  The dedup nonce is chosen once at startup and is the loop's only
parameter: the loop keeps no other state, so this covers every reachable
state of the loop. -/
def discoveryForwarded (localDedup : Nat) (trace : List DiscIn) :
    List (DiscoveryEvent × SocketAddr) :=
  (trace.map (discoveryStep localDedup)).flatten

/-- C1: `request_presence` emits exactly a `PresenceRequest` tagged with
the local dedup nonce, and over every input trace of the discovery loop
— in particular traces echoing several rapid `request_presence` calls —
no inbound `PresenceRequest` carrying the local dedup nonce is ever
forwarded on the discovery-to-manager channel. -/
theorem self_presence_request_never_forwarded (st : MState)
    (trace : List DiscIn) :
    requestPresence st = DiscoveryEvent.presenceRequest st.dedup
    ∧ (discoveryForwarded st.dedup trace).filter
        (fun e => e.1 = DiscoveryEvent.presenceRequest st.dedup) = [] := by
  refine ⟨rfl, ?_⟩
  induction trace with
  | nil => rfl
  | cons i rest ih =>
    cases i with
    | app e =>
      simpa [discoveryForwarded, discoveryStep] using ih
    | net e src =>
      cases e with
      | presenceRequest d =>
        by_cases hd : d = st.dedup
        · simpa [discoveryForwarded, discoveryStep, hd] using ih
        · simpa [discoveryForwarded, discoveryStep, hd] using ih
      | presenceResponse m =>
        simpa [discoveryForwarded, discoveryStep] using ih

/-! ## C8: session ids attached to outbound sessions -/

/-- Application control requests (lib/core proto.rs as used by node.rs);
the URI is carried as its UTF-8 bytes. -/
inductive CtlRequest where
  | launchUri (uri : Bytes)
deriving DecidableEq, Repr

/-- Application control responses (lib/core proto.rs as used by
node.rs). -/
inductive CtlResponse where
  | success
  | waiting
  | cancel
  | error (code : Nat)
deriving DecidableEq, Repr

/-- A control message is a request or a response (lib/core proto.rs). -/
inductive Ctl where
  | request (r : CtlRequest)
  | response (r : CtlResponse)
deriving DecidableEq, Repr

/-- lib/core proto.rs: a session pairs a u64 id with a control
message. -/
structure Session where
  id : Nat
  ctl : Ctl
deriving DecidableEq, Repr

/-- Commands handled by node.rs `handle_command`.  For `SendPeer` the
outcome of `connect_to_peer` is passed as an oracle, since the network
is external to the state machine. -/
inductive CmdRequest where
  | startDiscovery
  | stopDiscovery
  | sendPeer (id : PeerId) (req : CtlRequest) (connect : Except ConnError Peer)
  | setConfig
  | pairCmd
  | ack (session : Nat) (resp : CtlResponse)

/-- node.rs `handle_command`, restricted to its effect on the u64
session counter `state.session_id`: a failed `connect_to_peer` in
`SendPeer` propagates before the counter is touched; a successful one
increments the counter (wrapping at `2^64`) and then builds the
`Session` carrying the new counter value; no other command touches the
counter. -/
def handleCommand (sid : Nat) : CmdRequest → Nat × Option Session
  | CmdRequest.sendPeer _ req connect =>
    match connect with
    | Except.error _ => (sid, none)
    | Except.ok _ =>
      let sidNew := (sid + 1) % 2 ^ 64
      (sidNew, some { id := sidNew, ctl := Ctl.request req })
  | _ => (sid, none)

/-- The canonical successful `SendPeer` command used to trace the
counter. -/
def wSend : CmdRequest :=
  CmdRequest.sendPeer [1] (CtlRequest.launchUri []) (Except.ok wPeer1)

/-- The session counter after `n` successful `SendPeer` commands from a
fresh node (`State::default` starts the counter at 0). -/
def sidAfter : Nat → Nat
  | 0 => 0
  | n + 1 => (handleCommand (sidAfter n) wSend).1

theorem sidAfter_eq (n : Nat) : sidAfter n = n % 2 ^ 64 := by
  induction n with
  | zero => rfl
  | succ n ih =>
    show (handleCommand (sidAfter n) wSend).1 = (n + 1) % 2 ^ 64
    rw [ih]
    show (n % 2 ^ 64 + 1) % 2 ^ 64 = (n + 1) % 2 ^ 64
    conv_rhs => rw [Nat.add_mod]
    norm_num

/-- C8 amended: each successful `SendPeer` increments the session
counter before building the `Session`, which carries the new counter
value, and the ids are strictly increasing as long as fewer than `2^64`
sessions have been created in the node's lifetime (the u64 counter wraps
at `2^64`). -/
theorem session_ids_strictly_increasing (m n : Nat) (pid : PeerId)
    (req : CtlRequest) (p : Peer) (hmn : m < n) (hn : n < 2 ^ 64) :
    sidAfter m < sidAfter n
    ∧ handleCommand (sidAfter m) (CmdRequest.sendPeer pid req (Except.ok p)) =
      ((sidAfter m + 1) % 2 ^ 64,
        some { id := (sidAfter m + 1) % 2 ^ 64, ctl := Ctl.request req }) := by
  constructor
  · rw [sidAfter_eq, sidAfter_eq, Nat.mod_eq_of_lt (lt_trans hmn hn),
      Nat.mod_eq_of_lt hn]
    exact hmn
  · rfl

/-- Witness for C8 (amended) at the first two sessions. -/
theorem session_ids_strictly_increasing_witness :
    sidAfter 1 < sidAfter 2
    ∧ handleCommand (sidAfter 1)
        (CmdRequest.sendPeer [1] (CtlRequest.launchUri [])
          (Except.ok wPeer1)) =
      ((sidAfter 1 + 1) % 2 ^ 64,
        some { id := (sidAfter 1 + 1) % 2 ^ 64,
               ctl := Ctl.request (CtlRequest.launchUri []) }) :=
  session_ids_strictly_increasing 1 2 [1] (CtlRequest.launchUri []) wPeer1
    (by decide) (by decide)

/-- C8 counterexample: after `2^64 - 1` sessions the counter holds
`2^64 - 1`; `SendPeer` number `2^64` wraps the u64 counter and emits a
session with id 0, which is not larger than the id 1 carried by the
first session. -/
theorem session_id_wrap_counterexample :
    (handleCommand (sidAfter 0) wSend).2 =
      some { id := 1, ctl := Ctl.request (CtlRequest.launchUri []) }
    ∧ (handleCommand (sidAfter (2 ^ 64 - 1)) wSend).2 =
      some { id := 0, ctl := Ctl.request (CtlRequest.launchUri []) }
    ∧ ¬ (1 : Nat) < 0 := by
  refine ⟨rfl, ?_, by decide⟩
  rw [sidAfter_eq (2 ^ 64 - 1)]
  simp only [handleCommand, wSend]
  norm_num

/-! ## HMAC-SHA256 and TOTP (hmac.rs and pairing.rs are not among the
provided sources; modelled from the spec §4.2: `sign(key, msg)` returns
HMAC-SHA256(key, msg), `verify(key, msg, tag)` succeeds iff a freshly
signed tag equals the provided tag, and the handshake key is the ASCII
bytes of the TOTP code of the shared secret for the current 30-second
window). -/

/-- Truncation to a 32-bit word. -/
def w32 (x : Nat) : Nat := x % 2 ^ 32

/-- 32-bit right rotation. -/
def rotr (x n : Nat) : Nat := w32 ((x >>> n) ||| (x <<< (32 - n)))

/-- SHA-256 round constants (FIPS 180-4), written in decimal. -/
def sha256K : List Nat :=
  [1116352408, 1899447441, 3049323471, 3921009573,
   961987163, 1508970993, 2453635748, 2870763221,
   3624381080, 310598401, 607225278, 1426881987,
   1925078388, 2162078206, 2614888103, 3248222580,
   3835390401, 4022224774, 264347078, 604807628,
   770255983, 1249150122, 1555081692, 1996064986,
   2554220882, 2821834349, 2952996808, 3210313671,
   3336571891, 3584528711, 113926993, 338241895,
   666307205, 773529912, 1294757372, 1396182291,
   1695183700, 1986661051, 2177026350, 2456956037,
   2730485921, 2820302411, 3259730800, 3345764771,
   3516065817, 3600352804, 4094571909, 275423344,
   430227734, 506948616, 659060556, 883997877,
   958139571, 1322822218, 1537002063, 1747873779,
   1955562222, 2024104815, 2227730452, 2361852424,
   2428436474, 2756734187, 3204031479, 3329325298]

/-- SHA-256 initial hash value (FIPS 180-4), written in decimal. -/
def sha256H0 : List Nat :=
  [1779033703, 3144134277, 1013904242, 2773480762,
   1359893119, 2600822924, 528734635, 1541459225]

def bigSigma0 (x : Nat) : Nat := rotr x 2 ^^^ rotr x 13 ^^^ rotr x 22

def bigSigma1 (x : Nat) : Nat := rotr x 6 ^^^ rotr x 11 ^^^ rotr x 25

def smallSigma0 (x : Nat) : Nat := rotr x 7 ^^^ rotr x 18 ^^^ (x >>> 3)

def smallSigma1 (x : Nat) : Nat := rotr x 17 ^^^ rotr x 19 ^^^ (x >>> 10)

/-- SHA-256 choice function; bitwise negation is xor with the 32-bit
all-ones word. -/
def chF (x y z : Nat) : Nat := (x &&& y) ^^^ ((x ^^^ 0xffffffff) &&& z)

/-- SHA-256 majority function. -/
def majF (x y z : Nat) : Nat := (x &&& y) ^^^ (x &&& z) ^^^ (y &&& z)

/-- Big-endian 8-byte encoding of a u64. -/
def u64be (n : Nat) : Bytes :=
  [n >>> 56 % 256, n >>> 48 % 256, n >>> 40 % 256, n >>> 32 % 256,
   n >>> 24 % 256, n >>> 16 % 256, n >>> 8 % 256, n % 256]

/-- SHA-256 padding: append `0x80`, zeros up to 56 mod 64, then the
bit length as a big-endian u64. -/
def sha256Pad (msg : Bytes) : Bytes :=
  let len := msg.length
  let zeros := (120 - (len + 1) % 64) % 64
  msg ++ [0x80] ++ List.replicate zeros 0 ++ u64be (len * 8)

/-- Group bytes into big-endian 32-bit words. -/
def bytesToWords : Bytes → List Nat
  | b0 :: b1 :: b2 :: b3 :: rest =>
    (((b0 * 256 + b1) * 256 + b2) * 256 + b3) :: bytesToWords rest
  | _ => []

/-- Extend the 16 chunk words to the 64-entry message schedule. -/
def schedule (w16 : List Nat) : List Nat :=
  (List.range 48).foldl
    (fun ws j =>
      let i := j + 16
      ws ++ [w32 (smallSigma1 (ws.getD (i - 2) 0) + ws.getD (i - 7) 0 +
        smallSigma0 (ws.getD (i - 15) 0) + ws.getD (i - 16) 0)])
    w16

/-- The eight SHA-256 working variables. -/
structure Sha256State where
  a : Nat
  b : Nat
  c : Nat
  d : Nat
  e : Nat
  f : Nat
  g : Nat
  hh : Nat

/-- One SHA-256 compression round. -/
def compressWord (st : Sha256State) (ki wi : Nat) : Sha256State :=
  let t1 := w32 (st.hh + bigSigma1 st.e + chF st.e st.f st.g + ki + wi)
  let t2 := w32 (bigSigma0 st.a + majF st.a st.b st.c)
  { a := w32 (t1 + t2), b := st.a, c := st.b, d := st.c,
    e := w32 (st.d + t1), f := st.e, g := st.f, hh := st.g }

/-- Compress one 64-byte chunk into the running hash (eight words). -/
def compressChunk (hs : List Nat) (chunk : Bytes) : List Nat :=
  let ws := schedule (bytesToWords chunk)
  let s0 : Sha256State :=
    { a := hs.getD 0 0, b := hs.getD 1 0, c := hs.getD 2 0,
      d := hs.getD 3 0, e := hs.getD 4 0, f := hs.getD 5 0,
      g := hs.getD 6 0, hh := hs.getD 7 0 }
  let sf := (List.zip sha256K ws).foldl
    (fun st kw => compressWord st kw.1 kw.2) s0
  [w32 (hs.getD 0 0 + sf.a), w32 (hs.getD 1 0 + sf.b),
   w32 (hs.getD 2 0 + sf.c), w32 (hs.getD 3 0 + sf.d),
   w32 (hs.getD 4 0 + sf.e), w32 (hs.getD 5 0 + sf.f),
   w32 (hs.getD 6 0 + sf.g), w32 (hs.getD 7 0 + sf.hh)]

/-- Process the padded message 64 bytes at a time. -/
def processChunks (hs : List Nat) (data : Bytes) : List Nat :=
  if h : data = [] then hs
  else processChunks (compressChunk hs (data.take 64)) (data.drop 64)
termination_by data.length
decreasing_by
  have hpos : 0 < data.length := List.length_pos.mpr h
  simp only [List.length_drop]
  omega

/-- Big-endian bytes of a 32-bit word. -/
def u32bytes (w : Nat) : Bytes :=
  [w >>> 24 % 256, w >>> 16 % 256, w >>> 8 % 256, w % 256]

/-- Serialize hash words to bytes. -/
def wordsToBytes : List Nat → Bytes
  | [] => []
  | w :: ws => u32bytes w ++ wordsToBytes ws

/-- SHA-256 of a byte string. -/
def sha256 (msg : Bytes) : Bytes :=
  wordsToBytes (processChunks sha256H0 (sha256Pad msg))

/-- HMAC block-sized key: hash keys longer than the 64-byte block, then
pad with zeros to the block size. -/
def hmacBlockKey (key : Bytes) : Bytes :=
  let k := if 64 < key.length then sha256 key else key
  k ++ List.replicate (64 - k.length) 0

/-- Modelled from the spec: `sign(key, msg)` returns
HMAC-SHA256(key, msg). -/
def sign (key msg : Bytes) : Bytes :=
  let k := hmacBlockKey key
  sha256 ((k.map (fun b => b ^^^ 0x5c)) ++
    sha256 ((k.map (fun b => b ^^^ 0x36)) ++ msg))

/-- Modelled from the spec: `verify(key, msg, tag)` succeeds iff a
freshly signed tag equals the provided tag (the constant-time comparison
of the source is observationally equality). -/
def verify (key msg tag : Bytes) : Bool := sign key msg == tag

/-- Modelled from the spec: the standard TOTP value for a time window —
dynamic truncation (RFC 4226) of the HMAC of the 8-byte window counter,
reduced to 6 decimal digits.  The spec fixes HMAC-SHA256 as the MAC of
this core (§4.2); pairing.rs itself is not among the provided
sources. -/
def totpCode (auth : PairingAuthenticator) (window : Nat) : Nat :=
  let mac := sign auth.secret (u64be window)
  let off := mac.getD 31 0 &&& 0xf
  let bin := ((mac.getD off 0 &&& 0x7f) <<< 24) + (mac.getD (off + 1) 0 <<< 16)
    + (mac.getD (off + 2) 0 <<< 8) + mac.getD (off + 3) 0
  bin % 10 ^ 6

/-- Modelled from the spec: `TOTP(S, T).bytes()` — the ASCII digits of
the 6-digit TOTP code, the per-window HMAC key of the handshake. -/
def totpBytes (auth : PairingAuthenticator) (window : Nat) : Bytes :=
  let c := totpCode auth window
  [48 + c / 100000 % 10, 48 + c / 10000 % 10, 48 + c / 1000 % 10,
   48 + c / 100 % 10, 48 + c / 10 % 10, 48 + c % 10]

/-! ### Shape lemmas for the digest -/

theorem compressChunk_length (hs : List Nat) (chunk : Bytes) :
    (compressChunk hs chunk).length = 8 := by
  simp [compressChunk]

theorem processChunks_length_aux (n : Nat) :
    ∀ data : Bytes, data.length ≤ n → ∀ hs : List Nat,
      hs.length = 8 → (processChunks hs data).length = 8 := by
  induction n with
  | zero =>
    intro data hlen hs hhs
    have hnil : data = [] := List.eq_nil_of_length_eq_zero (Nat.le_zero.mp hlen)
    rw [processChunks]
    simp [hnil, hhs]
  | succ n ih =>
    intro data hlen hs hhs
    rw [processChunks]
    by_cases hnil : data = []
    · simp [hnil, hhs]
    · rw [dif_neg hnil]
      have hdrop : (data.drop 64).length ≤ n := by
        have hpos : 0 < data.length := List.length_pos.mpr hnil
        simp only [List.length_drop]
        omega
      exact ih (data.drop 64) hdrop _ (compressChunk_length hs _)

theorem wordsToBytes_length (ws : List Nat) :
    (wordsToBytes ws).length = 4 * ws.length := by
  induction ws with
  | nil => rfl
  | cons w ws ih =>
    simp [wordsToBytes, u32bytes, ih]
    ring

theorem wordsToBytes_lt (ws : List Nat) :
    ∀ b ∈ wordsToBytes ws, b < 256 := by
  induction ws with
  | nil => intro b hb; simp [wordsToBytes] at hb
  | cons w ws ih =>
    intro b hb
    rcases List.mem_append.mp hb with hb | hb
    · simp only [u32bytes, List.mem_cons] at hb
      rcases hb with h | h | h | h | h
      all_goals first
        | (subst h; exact Nat.mod_lt _ (by norm_num))
        | simp at h
    · exact ih b hb

theorem sha256_length (msg : Bytes) : (sha256 msg).length = 32 := by
  rw [sha256, wordsToBytes_length,
    processChunks_length_aux (sha256Pad msg).length (sha256Pad msg)
      (le_refl _) sha256H0 rfl]

theorem sha256_lt (msg : Bytes) : ∀ b ∈ sha256 msg, b < 256 :=
  wordsToBytes_lt _

theorem sign_length (key msg : Bytes) : (sign key msg).length = 32 :=
  sha256_length _

theorem sign_lt (key msg : Bytes) : ∀ b ∈ sign key msg, b < 256 :=
  sha256_lt _

/-! ### Verification behaviour -/

theorem verify_iff (key msg tag : Bytes) :
    verify key msg tag = true ↔ sign key msg = tag := by
  simp [verify]

/-- The 33-byte message associated with a choice of byte values. -/
def msgOfFn (g : Fin 33 → Fin 256) : Bytes := (List.ofFn g).map Fin.val

/-- The tag of such a message under a fixed key, viewed as a function
into bytes. -/
def tagFn (key : Bytes) (g : Fin 33 → Fin 256) : Fin 32 → Fin 256 :=
  fun i => ⟨(sign key (msgOfFn g)).getD i 0 % 256, Nat.mod_lt _ (by norm_num)⟩

/-- HMAC-SHA256 maps the `2^264` messages of 33 bytes into at most
`2^256` distinct 32-byte tags, so two distinct messages share a tag. -/
theorem sign_collision (key : Bytes) :
    ∃ m1 m2 : Bytes, m1.length = 33 ∧ m2.length = 33 ∧ m1 ≠ m2 ∧
      sign key m1 = sign key m2 := by
  obtain ⟨g1, g2, hne, heq⟩ :=
    Fintype.exists_ne_map_eq_of_card_lt (tagFn key) (by
      simp only [Fintype.card_fun, Fintype.card_fin]
      norm_num)
  refine ⟨msgOfFn g1, msgOfFn g2, by simp [msgOfFn], by simp [msgOfFn],
    ?_, ?_⟩
  · intro hmm
    apply hne
    exact List.ofFn_injective
      ((List.map_injective_iff.mpr Fin.val_injective) hmm)
  · apply List.ext_getElem
    · rw [sign_length, sign_length]
    · intro n h1 h2
      have hn : n < 32 := by rwa [sign_length] at h1
      have hv := congrArg Fin.val (congrFun heq ⟨n, hn⟩)
      simp only [tagFn] at hv
      rw [List.getD_eq_getElem _ 0 h1, List.getD_eq_getElem _ 0 h2,
        Nat.mod_eq_of_lt (sign_lt key _ _ (List.getElem_mem h1)),
        Nat.mod_eq_of_lt (sign_lt key _ _ (List.getElem_mem h2))] at hv
      exact hv

/-- C5 amended: for every shared secret, time window and message,
verification succeeds on a freshly signed tag, and
`verify(key, msg, tag)` succeeds exactly when the freshly signed tag
equals `tag` — so any tag differing from the fresh tag is rejected,
while a changed message is rejected exactly when its fresh tag differs
from the provided one (HMAC-SHA256 is not injective, so a changed
message is not rejected universally). -/
theorem totp_hmac_verify (auth : PairingAuthenticator) (window : Nat)
    (msg tag : Bytes) :
    verify (totpBytes auth window) msg
      (sign (totpBytes auth window) msg) = true
    ∧ (verify (totpBytes auth window) msg tag = true ↔
        sign (totpBytes auth window) msg = tag) :=
  ⟨(verify_iff _ _ _).mpr rfl, verify_iff _ _ _⟩

/-- C5 counterexample: under the key derived from the secret "hello" at
window 0, two distinct 33-byte ids share their HMAC-SHA256 tag
(pigeonhole: `2^264` messages, at most `2^256` tags), so verifying the
second id against the first id's fresh tag succeeds even though the ids
differ — refuting that verification fails for every changed id. -/
theorem hmac_changed_msg_counterexample :
    ∃ m1 m2 : Bytes, m1.length = 33 ∧ m2.length = 33 ∧ m1 ≠ m2 ∧
      verify (totpBytes { secret := [104, 101, 108, 108, 111] } 0) m2
        (sign (totpBytes { secret := [104, 101, 108, 108, 111] } 0) m1) =
        true := by
  obtain ⟨m1, m2, h1, h2, hne, heq⟩ :=
    sign_collision (totpBytes { secret := [104, 101, 108, 108, 111] } 0)
  exact ⟨m1, m2, h1, h2, hne, (verify_iff _ _ _).mpr heq.symm⟩

/-! ## C2: the connection handshake (net.rs) -/

/-- net.rs error codes. -/
def TIMEOUT_ERR : Nat := 2001

def NOT_FOUND_ERR : Nat := 2002

def AUTH_ERR : Nat := 2003

/-- Frames of the connection codec, as pattern-matched by net.rs. -/
inductive Connection where
  | request (id : PeerId) (tag : Bytes)
  | response (tag : Bytes)
  | completeRequest
  | completeResponse
  | failure (code : Nat)
deriving DecidableEq, Repr

/-- The outcome of one `frame.next()` under its 1-second timeout: the
timer fires, the stream closes, the codec fails, or a frame arrives. -/
inductive RecvEvent where
  | timeout
  | closed
  | codecErr
  | frame (c : Connection)
deriving DecidableEq, Repr

/-- Take the next receive outcome from the script; an exhausted script
behaves as a closed stream. -/
def recvNext : List RecvEvent → RecvEvent × List RecvEvent
  | [] => (RecvEvent.closed, [])
  | e :: rest => (e, rest)

/-- net.rs `connect` — the client handshake, driven by the successive
outcomes of its receives; `window` is the TOTP window
`peer.auth.generate()` reads from the clock.  Returns the result and the
frames sent. -/
def netConnect (localId : PeerId) (peer : PeerCandidate) (window : Nat)
    (script : List RecvEvent) : Except ConnError Peer × List Connection :=
  let key := totpBytes peer.auth window
  let tag := sign key localId
  let sent := [Connection.request localId tag]
  match recvNext script with
  | (RecvEvent.timeout, _) =>
    (Except.error ConnError.timeout, sent ++ [Connection.failure TIMEOUT_ERR])
  | (RecvEvent.closed, _) => (Except.error ConnError.disconnect, sent)
  | (RecvEvent.codecErr, _) => (Except.error ConnError.codec, sent)
  | (RecvEvent.frame (Connection.response rtag), rest) =>
    if verify key peer.id rtag then
      let sent2 := sent ++ [Connection.completeRequest]
      match recvNext rest with
      | (RecvEvent.timeout, _) =>
        (Except.error ConnError.timeout,
          sent2 ++ [Connection.failure TIMEOUT_ERR])
      | (RecvEvent.closed, _) => (Except.error ConnError.disconnect, sent2)
      | (RecvEvent.codecErr, _) => (Except.error ConnError.codec, sent2)
      | (RecvEvent.frame Connection.completeResponse, _) =>
        (Except.ok { id := peer.metadata.id, metadata := peer.metadata,
                     role := ConnectionType.client }, sent2)
      | (RecvEvent.frame _, _) => (Except.error ConnError.msg, sent2)
    else
      (Except.error ConnError.auth, sent ++ [Connection.failure AUTH_ERR])
  | (RecvEvent.frame (Connection.failure code), _) =>
    (Except.error (ConnError.failure code), sent)
  | (RecvEvent.frame _, _) => (Except.error ConnError.msg, sent)

/-- net.rs `accept` — the server handshake on an inbound connection. -/
def netAccept (st : MState) (window : Nat) (script : List RecvEvent) :
    Except ConnError Peer × List Connection :=
  match recvNext script with
  | (RecvEvent.timeout, _) =>
    (Except.error ConnError.timeout, [Connection.failure TIMEOUT_ERR])
  | (RecvEvent.closed, _) => (Except.error ConnError.disconnect, [])
  | (RecvEvent.codecErr, _) => (Except.error ConnError.codec, [])
  | (RecvEvent.frame (Connection.request id tag), rest) =>
    match getPeerCandidate st id with
    | none =>
      (Except.error ConnError.notFound, [Connection.failure NOT_FOUND_ERR])
    | some peer =>
      let key := totpBytes peer.auth window
      if verify key peer.id tag then
        let sent := [Connection.response (sign key st.id)]
        match recvNext rest with
        | (RecvEvent.timeout, _) =>
          (Except.error ConnError.timeout,
            sent ++ [Connection.failure TIMEOUT_ERR])
        | (RecvEvent.closed, _) => (Except.error ConnError.disconnect, sent)
        | (RecvEvent.codecErr, _) => (Except.error ConnError.codec, sent)
        | (RecvEvent.frame Connection.completeRequest, _) =>
          (Except.ok { id := peer.metadata.id, metadata := peer.metadata,
                       role := ConnectionType.server },
            sent ++ [Connection.completeResponse])
        | (RecvEvent.frame _, _) => (Except.error ConnError.msg, sent)
      else
        (Except.error ConnError.auth, [Connection.failure AUTH_ERR])
  | (RecvEvent.frame (Connection.failure code), _) =>
    (Except.error (ConnError.failure code), [])
  | (RecvEvent.frame _, _) => (Except.error ConnError.msg, [])

/-- A server state holding exactly one discovered candidate, as used to
exercise the accept handshake. -/
def oneCandState (localId : PeerId) (meta0 : PeerMetadata)
    (cand : PeerCandidate) : MState :=
  { id := localId, metadata := meta0, known_peers := [],
    discovered_peers := [(cand.id, cand)], connected_peers := [],
    dedup := 0 }

/-- C2 amended: a `Failure(code)` frame received at the first expected
message is surfaced as the `Failure(code)` error in both roles; but at
the later states — the client waiting for `CompleteResponse` and the
server waiting for `CompleteRequest` — a `Failure(code)` frame falls
into the wrong-message arm and yields the `Msg` error instead. -/
theorem handshake_failure_surfacing (localId : PeerId) (meta0 : PeerMetadata)
    (peer cand : PeerCandidate) (st : MState) (window c : Nat)
    (rest : List RecvEvent) :
    (netConnect localId peer window
        (RecvEvent.frame (Connection.failure c) :: rest)).1 =
      Except.error (ConnError.failure c)
    ∧ (netConnect localId peer window
        (RecvEvent.frame (Connection.response
            (sign (totpBytes peer.auth window) peer.id)) ::
          RecvEvent.frame (Connection.failure c) :: rest)).1 =
      Except.error ConnError.msg
    ∧ (netAccept st window
        (RecvEvent.frame (Connection.failure c) :: rest)).1 =
      Except.error (ConnError.failure c)
    ∧ (netAccept (oneCandState localId meta0 cand) window
        (RecvEvent.frame (Connection.request cand.id
            (sign (totpBytes cand.auth window) cand.id)) ::
          RecvEvent.frame (Connection.failure c) :: rest)).1 =
      Except.error ConnError.msg := by
  refine ⟨rfl, ?_, rfl, ?_⟩
  · simp [netConnect, recvNext, verify]
  · simp [netAccept, recvNext, oneCandState, getPeerCandidate, mapLookup,
      verify]

/-- C2 counterexample: the client handshake that has passed verification
and sent `CompleteRequest` receives `Failure(2001)` while waiting for
`CompleteResponse`, and returns the `Msg` error, not `Failure(2001)`. -/
theorem handshake_failure_late_counterexample :
    (netConnect [1] wCand2 0
        (RecvEvent.frame (Connection.response
            (sign (totpBytes wCand2.auth 0) wCand2.id)) ::
          [RecvEvent.frame (Connection.failure 2001)])).1 =
      Except.error ConnError.msg
    ∧ (Except.error ConnError.msg : Except ConnError Peer) ≠
      Except.error (ConnError.failure 2001) := by
  constructor
  · simp [netConnect, recvNext, verify]
  · intro h
    injection h with h2
    simp at h2

/-! ## C7: the frame codecs (proto.rs is not among the provided sources;
modelled from the spec §4.1/§6: each codec frames a payload behind a
4-byte big-endian u32 length prefix; the payload is a discriminant byte
followed by the variant body; byte-string fields are length-prefixed;
`PeerMetadata` is serialized as id, device type byte, name and address;
the address is 4 IPv4 bytes and a 2-byte port). -/

/-- Big-endian 4-byte encoding of a u32. -/
def u32be (n : Nat) : Bytes :=
  [n >>> 24 % 256, n >>> 16 % 256, n >>> 8 % 256, n % 256]

/-- Read a big-endian u32, returning it and the remaining input. -/
def readU32be : Bytes → Option (Nat × Bytes)
  | b0 :: b1 :: b2 :: b3 :: rest =>
    some ((((b0 * 256 + b1) * 256 + b2) * 256 + b3), rest)
  | _ => none

/-- Length-prefix a byte string. -/
def withLen (bs : Bytes) : Bytes := u32be bs.length ++ bs

/-- Read a length-prefixed byte string. -/
def readChunk (input : Bytes) : Option (Bytes × Bytes) :=
  match readU32be input with
  | none => none
  | some (n, rest) =>
    if n ≤ rest.length then some (rest.take n, rest.drop n) else none

/-- Discriminant byte of the device type. -/
def deviceTypeByte : DeviceType → Nat
  | DeviceType.desktop => 0
  | DeviceType.mobile => 1
  | DeviceType.unknown => 2

/-- Decode a device type byte. -/
def readDeviceType (b : Nat) : Option DeviceType :=
  if b = 0 then some DeviceType.desktop
  else if b = 1 then some DeviceType.mobile
  else if b = 2 then some DeviceType.unknown
  else none

/-- Serialize a socket address: 4 IPv4 bytes, 2 port bytes. -/
def encodeAddr (a : SocketAddr) : Bytes :=
  u32be a.ip ++ [a.port >>> 8 % 256, a.port % 256]

/-- Read a socket address. -/
def readAddr (input : Bytes) : Option (SocketAddr × Bytes) :=
  match readU32be input with
  | some (ip, p1 :: p0 :: rest) =>
    some ({ ip := ip, port := p1 * 256 + p0 }, rest)
  | _ => none

/-- Serialize peer metadata. -/
def encodeMeta (m : PeerMetadata) : Bytes :=
  withLen m.id ++ [deviceTypeByte m.typ] ++ withLen m.name ++
    encodeAddr m.addr

/-- Read a single byte. -/
def readByte : Bytes → Option (Nat × Bytes)
  | [] => none
  | b :: rest => some (b, rest)

/-- Read peer metadata. -/
def readMeta (input : Bytes) : Option (PeerMetadata × Bytes) :=
  match readChunk input with
  | none => none
  | some (id, r1) =>
    match readByte r1 with
    | none => none
    | some (tb, r2) =>
      match readDeviceType tb with
      | none => none
      | some typ =>
        match readChunk r2 with
        | none => none
        | some (name, r3) =>
          match readAddr r3 with
          | none => none
          | some (addr, r4) =>
            some ({ id := id, typ := typ, name := name, addr := addr }, r4)

/-- DiscoveryCodec encode: a u32 length prefix, then discriminant `0x00`
with the dedup nonce or `0x01` with the metadata. -/
def encodeDiscovery (e : DiscoveryEvent) : Bytes :=
  let payload : Bytes :=
    match e with
    | DiscoveryEvent.presenceRequest d => 0 :: u32be d
    | DiscoveryEvent.presenceResponse m => 1 :: encodeMeta m
  u32be payload.length ++ payload

/-- Strip the u32 length prefix, returning the payload (the decoders
report a recoverable error when fewer bytes than the prefix announces
are available; here that and a malformed payload are both `none`). -/
def unframe (input : Bytes) : Option Bytes :=
  match readU32be input with
  | none => none
  | some (n, rest) => if n ≤ rest.length then some (rest.take n) else none

/-- DiscoveryCodec payload decode, by discriminant byte. -/
def decodeDiscoveryPayload : Bytes → Option DiscoveryEvent
  | [] => none
  | b :: body =>
    if b = 0 then
      match readU32be body with
      | some (d, []) => some (DiscoveryEvent.presenceRequest d)
      | _ => none
    else if b = 1 then
      match readMeta body with
      | some (m, []) => some (DiscoveryEvent.presenceResponse m)
      | _ => none
    else none

/-- DiscoveryCodec decode of one whole frame. -/
def decodeDiscovery (input : Bytes) : Option DiscoveryEvent :=
  match unframe input with
  | none => none
  | some payload => decodeDiscoveryPayload payload

/-- ConnectionCodec encode: a u32 length prefix, then the discriminant
and variant body. -/
def encodeConnection (c : Connection) : Bytes :=
  let payload : Bytes :=
    match c with
    | Connection.request id tag => 0 :: (withLen id ++ withLen tag)
    | Connection.response tag => 1 :: withLen tag
    | Connection.completeRequest => [2]
    | Connection.completeResponse => [3]
    | Connection.failure code => 255 :: u32be code
  u32be payload.length ++ payload

/-- ConnectionCodec payload decode, by discriminant byte. -/
def decodeConnectionPayload : Bytes → Option Connection
  | [] => none
  | b :: body =>
    if b = 0 then
      match readChunk body with
      | some (id, r1) =>
        (match readChunk r1 with
         | some (tag, []) => some (Connection.request id tag)
         | _ => none)
      | none => none
    else if b = 1 then
      match readChunk body with
      | some (tag, []) => some (Connection.response tag)
      | _ => none
    else if b = 2 then
      match body with
      | [] => some Connection.completeRequest
      | _ => none
    else if b = 3 then
      match body with
      | [] => some Connection.completeResponse
      | _ => none
    else if b = 255 then
      match readU32be body with
      | some (code, []) => some (Connection.failure code)
      | _ => none
    else none

/-- ConnectionCodec decode of one whole frame. -/
def decodeConnection (input : Bytes) : Option Connection :=
  match unframe input with
  | none => none
  | some payload => decodeConnectionPayload payload

/-- Well-formedness of a byte-string field: bytes fit in an octet and
the length fits comfortably under the u32 length prefixes (the Rust
types guarantee both). -/
def bytesWF (bs : Bytes) : Prop :=
  (∀ b ∈ bs, b < 256) ∧ bs.length < 2 ^ 20

/-- Well-formedness of an address: u32 address, u16 port. -/
def addrWF (a : SocketAddr) : Prop := a.ip < 2 ^ 32 ∧ a.port < 2 ^ 16

/-- Well-formedness of metadata. -/
def metaWF (m : PeerMetadata) : Prop :=
  bytesWF m.id ∧ bytesWF m.name ∧ addrWF m.addr

/-- Well-formedness of a discovery frame (u32 dedup). -/
def discoveryWF : DiscoveryEvent → Prop
  | DiscoveryEvent.presenceRequest d => d < 2 ^ 32
  | DiscoveryEvent.presenceResponse m => metaWF m

/-- Well-formedness of a connection frame (u32 failure code). -/
def connectionWF : Connection → Prop
  | Connection.request id tag => bytesWF id ∧ bytesWF tag
  | Connection.response tag => bytesWF tag
  | Connection.failure code => code < 2 ^ 32
  | _ => True

/-! ### Codec round-trip lemmas -/

theorem readU32be_u32be (n : Nat) (rest : Bytes) (h : n < 2 ^ 32) :
    readU32be (u32be n ++ rest) = some (n, rest) := by
  have harith :
      ((n >>> 24 % 256 * 256 + n >>> 16 % 256) * 256 + n >>> 8 % 256) * 256
        + n % 256 = n := by
    simp only [Nat.shiftRight_eq_div_pow]
    omega
  simp [u32be, readU32be, harith]

theorem readU32be_u32be_nil (n : Nat) (h : n < 2 ^ 32) :
    readU32be (u32be n) = some (n, []) := by
  have := readU32be_u32be n [] h
  rwa [List.append_nil] at this

theorem readChunk_withLen (bs rest : Bytes) (h : bs.length < 2 ^ 32) :
    readChunk (withLen bs ++ rest) = some (bs, rest) := by
  rw [withLen, List.append_assoc, readChunk, readU32be_u32be _ _ h]
  simp [List.take_left, List.drop_left]

theorem readChunk_withLen_nil (bs : Bytes) (h : bs.length < 2 ^ 32) :
    readChunk (withLen bs) = some (bs, []) := by
  have := readChunk_withLen bs [] h
  rwa [List.append_nil] at this

theorem readAddr_encodeAddr (a : SocketAddr) (rest : Bytes)
    (h : addrWF a) :
    readAddr (encodeAddr a ++ rest) = some (a, rest) := by
  have hport : a.port >>> 8 % 256 * 256 + a.port % 256 = a.port := by
    have := h.2
    simp only [Nat.shiftRight_eq_div_pow]
    omega
  rw [encodeAddr, List.append_assoc, readAddr]
  rw [show ([a.port >>> 8 % 256, a.port % 256] ++ rest) =
    a.port >>> 8 % 256 :: (a.port % 256 :: rest) from rfl]
  rw [readU32be_u32be _ _ h.1]
  simp [hport]

theorem readDeviceType_byte (t : DeviceType) :
    readDeviceType (deviceTypeByte t) = some t := by
  cases t <;> rfl

theorem readByte_cons (b : Nat) (r : Bytes) : readByte (b :: r) = some (b, r) :=
  rfl

theorem readMeta_encodeMeta (m : PeerMetadata) (rest : Bytes)
    (h : metaWF m) :
    readMeta (encodeMeta m ++ rest) = some (m, rest) := by
  obtain ⟨hid, hname, haddr⟩ := h
  have hcid : ∀ r, readChunk (withLen m.id ++ r) = some (m.id, r) :=
    fun r => readChunk_withLen _ r (by have := hid.2; omega)
  have hcname : ∀ r, readChunk (withLen m.name ++ r) = some (m.name, r) :=
    fun r => readChunk_withLen _ r (by have := hname.2; omega)
  have hca : ∀ r, readAddr (encodeAddr m.addr ++ r) = some (m.addr, r) :=
    fun r => readAddr_encodeAddr _ r haddr
  simp [encodeMeta, readMeta, List.append_assoc, List.singleton_append,
    hcid, readByte_cons, readDeviceType_byte, hcname, hca]

theorem unframe_encode (p : Bytes) (h : p.length < 2 ^ 32) :
    unframe (u32be p.length ++ p) = some p := by
  rw [unframe, readU32be_u32be _ _ h]
  simp [List.take_length]

/-- C7: for every well-formed frame of the DiscoveryCodec and of the
ConnectionCodec, decoding the encoding yields the frame back. -/
theorem codec_round_trip (e : DiscoveryEvent) (c : Connection)
    (he : discoveryWF e) (hc : connectionWF c) :
    decodeDiscovery (encodeDiscovery e) = some e
    ∧ decodeConnection (encodeConnection c) = some c := by
  constructor
  · cases e with
    | presenceRequest d =>
      rw [encodeDiscovery, decodeDiscovery]
      rw [unframe_encode _ (by simp [u32be])]
      simp [decodeDiscoveryPayload, readU32be_u32be_nil _ he]
    | presenceResponse m =>
      have hmeta : readMeta (encodeMeta m) = some (m, []) := by
        have := readMeta_encodeMeta m [] he
        rwa [List.append_nil] at this
      rw [encodeDiscovery, decodeDiscovery]
      rw [unframe_encode _ (by
        have h1 := he.1.2
        have h2 := he.2.1.2
        simp [encodeMeta, withLen, u32be, encodeAddr]
        omega)]
      simp [decodeDiscoveryPayload, hmeta]
  · cases c with
    | request id tag =>
      have hcid : readChunk (withLen id ++ withLen tag) =
          some (id, withLen tag) :=
        readChunk_withLen _ _ (by have := hc.1.2; omega)
      have hctag : readChunk (withLen tag) = some (tag, []) :=
        readChunk_withLen_nil _ (by have := hc.2.2; omega)
      rw [encodeConnection, decodeConnection]
      rw [unframe_encode _ (by
        have h1 := hc.1.2
        have h2 := hc.2.2
        simp [withLen, u32be]
        omega)]
      simp [decodeConnectionPayload, hcid, hctag]
    | response tag =>
      have hctag : readChunk (withLen tag) = some (tag, []) :=
        readChunk_withLen_nil _ (by have := hc.2; omega)
      rw [encodeConnection, decodeConnection]
      rw [unframe_encode _ (by
        have h1 := hc.2
        simp [withLen, u32be]
        omega)]
      simp [decodeConnectionPayload, hctag]
    | completeRequest =>
      rfl
    | completeResponse =>
      rfl
    | failure code =>
      rw [encodeConnection, decodeConnection]
      rw [unframe_encode _ (by simp [u32be])]
      simp [decodeConnectionPayload, readU32be_u32be_nil _ hc]

/-- Witness for C7 at concrete frames of each codec. -/
theorem codec_round_trip_witness :
    decodeDiscovery (encodeDiscovery
      (DiscoveryEvent.presenceResponse wMeta2a)) =
      some (DiscoveryEvent.presenceResponse wMeta2a)
    ∧ decodeConnection (encodeConnection
      (Connection.request [2] [9, 9])) =
      some (Connection.request [2] [9, 9]) :=
  codec_round_trip (DiscoveryEvent.presenceResponse wMeta2a)
    (Connection.request [2] [9, 9])
    (by simp only [discoveryWF, metaWF, bytesWF, addrWF]; decide)
    (by simp only [connectionWF, bytesWF]; decide)

end Flydrop
